import Mathlib

/-!
Verification of the haproxy-api adapter layer.

This file shallowly embeds the parts of the repository that the stated
properties are about:

* the `Headers` collection of `src/http.rs` (`Headers::get`,
  `Headers::get_first`), built over a two-level Lua table
  (header name, then integer position key, then value);
* the enum decoders `Proxy::get_cap` and `Proxy::get_mode` of
  `src/proxy.rs`;
* the `Server::tracking` accessor of `src/server.rs`;
* the `rust_resp` response-phase action closure of
  `examples/prometheus/src/lib.rs`, together with the pieces of its
  environment it touches (the transaction variable store, the
  `form_urlencoded` query parser, the prometheus counter/histogram
  registry, and the millisecond clock).

Lua tables are modelled as association lists with at most one entry per
key; durations are modelled in whole milliseconds, which is the
resolution of the timestamp the request phase stores.
-/

namespace HaproxyApi

/-! ### ASCII lowercasing, as in Rust `str::to_ascii_lowercase` -/

def asciiLowerChar (c : Char) : Char :=
  if 'A' ≤ c ∧ c ≤ 'Z' then Char.ofNat (c.toNat + 32) else c

def asciiLower (s : String) : String :=
  String.mk (s.data.map asciiLowerChar)

/-! ### Lua tables

A Lua table is a key/value map; we model it as an association list and
`tget` as raw table access (`Table::get`).  A well-formed table has at
most one entry per key, so lookup is order-independent there.
-/

def tget {κ α : Type} [DecidableEq κ] : List (κ × α) → κ → Option α
  | [], _ => none
  | p :: rest, k => if p.1 = k then some p.2 else tget rest k

/-- Inner table of one header: integer position key to value.  The value
type is `String`, the instantiation the repository's example uses. -/
abbrev Inner := List (Int × String)

/-- Outer `Headers` table: header name (as stored by the host) to inner
positional table. -/
abbrev HTable := List (String × Inner)

/-- Order on header entries by their integer position key; this is the
comparison `sort_by_key(|x| x.0)` performs in `Headers::get`. -/
def keyLE (a b : Int × String) : Prop := a.1 ≤ b.1

/-- Strict version of `keyLE`, used to state strict positional order. -/
def keyLT (a b : Int × String) : Prop := a.1 < b.1

instance : DecidableRel keyLE := fun a b => inferInstanceAs (Decidable (a.1 ≤ b.1))

instance : IsTotal (Int × String) keyLE := ⟨fun a b => Int.le_total a.1 b.1⟩

instance : IsTrans (Int × String) keyLE := ⟨fun _ _ _ h1 h2 => le_trans h1 h2⟩

instance : IsAntisymm (Int × String) keyLT :=
  ⟨fun _ _ h1 h2 => absurd (lt_trans h1 h2) (lt_irrefl _)⟩

/-- The stable by-key sort `pairs.sort_by_key(|x| x.0)` of `Headers::get`. -/
def sortPairs (l : Inner) : Inner := List.insertionSort keyLE l

/-- Well-formedness of a host headers table: the host enumerates each
key at most once, at both levels. -/
@[reducible]
def HTableWF (h : HTable) : Prop :=
  (h.map Prod.fst).Nodup ∧ ∀ p ∈ h, (p.2.map Prod.fst).Nodup

namespace Headers

/-- `Headers::get` (src/http.rs): lower-case the name, fetch the inner
table, collect its `(position, value)` pairs in host enumeration order,
sort them by position key, and return the values. -/
def get (h : HTable) (name : String) : List String :=
  match tget h (asciiLower name) with
  | none => []
  | some inner => (sortPairs inner).map Prod.snd

/-- `Headers::get_first` (src/http.rs): lower-case the name, fetch the
inner table, and return the entry at position key 0 if any. -/
def get_first (h : HTable) (name : String) : Option String :=
  match tget h (asciiLower name) with
  | none => none
  | some inner => tget inner 0

end Headers

/-- Relation between two host enumerations of the same headers: same
outer entries in the same outer order, each inner table enumerated in a
possibly different order. -/
def EntryEquiv (p q : String × Inner) : Prop :=
  p.1 = q.1 ∧ List.Perm p.2 q.2

/-- Base-index convention of the host: position keys are nonnegative and,
when a header has values at all, position key 0 is present ("Indexes
starts from 0"). -/
@[reducible]
def BaseIndexed (inner : Inner) : Prop :=
  (∀ p ∈ inner, (0 : Int) ≤ p.1) ∧ (inner ≠ [] → ∃ p ∈ inner, p.1 = (0 : Int))

/-! ### Enum decoding (src/proxy.rs)

`Proxy::get_cap` and `Proxy::get_mode` call the host member, then match
the returned text tag.  The matching step is embedded here; it takes the
tag the host produced. -/

inductive ProxyCapability where
  | Frontend
  | Backend
  | Proxy
  | Ruleset
deriving DecidableEq

inductive ProxyMode where
  | Tcp
  | Http
  | Health
  | Unknown
deriving DecidableEq

def Proxy.get_cap (cap : String) : ProxyCapability :=
  if cap = "frontend" then ProxyCapability.Frontend
  else if cap = "backend" then ProxyCapability.Backend
  else if cap = "proxy" then ProxyCapability.Proxy
  else ProxyCapability.Ruleset

def Proxy.get_mode (mode : String) : ProxyMode :=
  if mode = "tcp" then ProxyMode.Tcp
  else if mode = "http" then ProxyMode.Http
  else if mode = "health" then ProxyMode.Health
  else ProxyMode.Unknown

/-! ### Server accessor (src/server.rs)

A handle is a map from member name to the decoded result of calling that
member; calling a member the host does not provide raises a host-call
error naming the member. -/

def callMethod {α : Type} (handle : String → Option α) (member : String) :
    Except String α :=
  match handle member with
  | some v => Except.ok v
  | none => Except.error member

/-- `Server::tracking` invokes the member named by the string literal
that appears in the source at src/server.rs. -/
def Server.tracking {α : Type} (handle : String → Option α) : Except String α :=
  callMethod handle "tracking("

/-! ### The prometheus example's response action (examples/prometheus/src/lib.rs)

The closure registered as `rust_resp` is embedded as a pure state
transformer.  Its environment:

* `vars` is the transaction variable store (`txn.get_var`); a stored
  value is either a Lua string or a nonnegative Lua integer, which are
  the shapes the request phase writes;
* `fetches` gives the results of the sample fetches `method`/`status`
  (`txn.f.get`), `none` meaning the host call fails;
* `resHeadersOk` tells whether the response-header enumeration that the
  closure runs first succeeds;
* `nowMs` is the current clock reading, in whole milliseconds since the
  epoch, matching the resolution of the stored timestamp;
* the registry holds the two counter vectors and the histogram as the
  lists of their recorded updates, in order.

An error outcome carries the registry as already mutated, since the
prometheus registry is a shared object updated in place. -/

inductive VarVal where
  | vstr (s : String)
  | vint (n : Nat)
deriving DecidableEq

inductive HookErr where
  | headersError
  | varConvError (name : String)
  | fetchError (name : String)
  | durationPanic
deriving DecidableEq

/-- Decoding of `txn.get_var::<String>`: a missing variable is Lua nil,
which fails conversion; integers are coerced to strings as Lua does. -/
def decodeVarString (name : String) (v : Option VarVal) : Except HookErr String :=
  match v with
  | some (VarVal.vstr s) => Except.ok s
  | some (VarVal.vint n) => Except.ok (toString n)
  | none => Except.error (HookErr.varConvError name)

/-- Decoding of `txn.get_var::<u128>`: a missing variable is Lua nil,
which fails conversion; a string is coerced when it reads as an
integer. -/
def decodeVarU128 (name : String) (v : Option VarVal) : Except HookErr Nat :=
  match v with
  | some (VarVal.vint n) => Except.ok n
  | some (VarVal.vstr s) =>
    match s.toNat? with
    | some n => Except.ok n
    | none => Except.error (HookErr.varConvError name)
  | none => Except.error (HookErr.varConvError name)

/-! #### The `form_urlencoded` parser

`form_urlencoded::parse` splits the input on every `&`, skips empty
segments, splits each segment at its first `=` (a segment without `=`
gets an empty value), and percent-plus-decodes name and value.  The
closure collects the pairs into a `HashMap`, so a repeated name keeps
its last value. -/

def hexVal (c : Char) : Option Nat :=
  if '0' ≤ c ∧ c ≤ '9' then some (c.toNat - '0'.toNat)
  else if 'a' ≤ c ∧ c ≤ 'f' then some (c.toNat - 'a'.toNat + 10)
  else if 'A' ≤ c ∧ c ≤ 'F' then some (c.toNat - 'A'.toNat + 10)
  else none

def percentPlusDecode : List Char → List Char
  | [] => []
  | '%' :: a :: b :: rest =>
    match hexVal a, hexVal b with
    | some hi, some lo => Char.ofNat (16 * hi + lo) :: percentPlusDecode rest
    | _, _ => '%' :: percentPlusDecode (a :: b :: rest)
  | '+' :: rest => ' ' :: percentPlusDecode rest
  | c :: rest => c :: percentPlusDecode rest

def decodeComponent (cs : List Char) : String :=
  String.mk (percentPlusDecode cs)

/-- Split the input at every ampersand, keeping empty segments. -/
def splitAmp : List Char → List (List Char)
  | [] => [[]]
  | '&' :: rest => [] :: splitAmp rest
  | c :: rest =>
    match splitAmp rest with
    | [] => [[c]]
    | seg :: segs => (c :: seg) :: segs

/-- Split one segment at its first equals sign; a segment without one
gets an empty value, exactly as `splitn(2, b'=')` with a default. -/
def splitEq1 : List Char → List Char × List Char
  | [] => ([], [])
  | '=' :: rest => ([], rest)
  | c :: rest =>
    let p := splitEq1 rest
    (c :: p.1, p.2)

def parseFormUrlencoded (s : String) : List (String × String) :=
  (splitAmp s.data).filterMap fun seg =>
    match seg with
    | [] => none
    | _ =>
      let p := splitEq1 seg
      some (decodeComponent p.1, decodeComponent p.2)

/-- `query_params.get(k)` after `collect::<HashMap<_, _>>`: the last
pair for `k` wins, absence is `none`. -/
def queryLookup (s k : String) : Option String :=
  (parseFormUrlencoded s).foldl
    (fun acc p => if p.1 = k then some p.2 else acc) none

/-- The prometheus registry, restricted to the metrics the response
action touches: each counter vector is the list of label values of its
increments, the histogram is the list of its observations
`(foo label, bar label, observed milliseconds)`. -/
structure Registry where
  fooCounts : List String
  barCounts : List String
  histObs : List (String × String × Nat)
deriving DecidableEq

/-- `foo_call_total.with_label_values(&[param]).inc()` guarded by
`if let Some(param) = foo_param`. -/
def incFooOpt (reg : Registry) : Option String → Registry
  | some p => { reg with fooCounts := reg.fooCounts ++ [p] }
  | none => reg

/-- `bar_call_total.with_label_values(&[param]).inc()` guarded by
`if let Some(param) = bar_param`. -/
def incBarOpt (reg : Registry) : Option String → Registry
  | some p => { reg with barCounts := reg.barCounts ++ [p] }
  | none => reg

/-- The size of the u64 value space; `e as u64` reduces the stored u128
modulo this. -/
def U64SIZE : Nat := 2 ^ 64

/-- The `rust_resp` action closure, step by step in source order:
enumerate response headers, read back `txn.req_uri`, parse it, bump the
`foo` and `bar` counters for the parameters that are present, run the
`method` and `status` fetches, read back `txn.start_time` (truncating
the stored u128 milliseconds to u64, as `e as u64` does), subtract it
from the current reading (`Duration::sub` panics when the current
reading is smaller), and observe the histogram under both labels,
absent parameters giving empty-string labels. -/
def rust_resp (vars : String → Option VarVal) (fetches : String → Option String)
    (resHeadersOk : Bool) (nowMs : Nat) (reg : Registry) :
    Registry × Option HookErr :=
  if resHeadersOk = false then (reg, some HookErr.headersError)
  else
    match decodeVarString "txn.req_uri" (vars "txn.req_uri") with
    | Except.error e => (reg, some e)
    | Except.ok req_uri =>
      let foo_param := queryLookup req_uri "foo"
      let reg1 := incFooOpt reg foo_param
      let bar_param := queryLookup req_uri "bar"
      let reg2 := incBarOpt reg1 bar_param
      match fetches "method" with
      | none => (reg2, some (HookErr.fetchError "method"))
      | some _ =>
        match fetches "status" with
        | none => (reg2, some (HookErr.fetchError "status"))
        | some _ =>
          match decodeVarU128 "txn.start_time" (vars "txn.start_time") with
          | Except.error e => (reg2, some e)
          | Except.ok st =>
            let startMs := st % U64SIZE
            if nowMs < startMs then (reg2, some HookErr.durationPanic)
            else
              let processMs := nowMs - startMs
              let foo_value := foo_param.getD ""
              let bar_value := bar_param.getD ""
              ({ reg2 with
                  histObs := reg2.histObs ++ [(foo_value, bar_value, processMs)] },
               none)

/-! ### Facts about the by-key sort -/

theorem sortPairs_perm (l : Inner) : List.Perm (sortPairs l) l :=
  List.perm_insertionSort keyLE l

theorem sortPairs_sorted (l : Inner) : List.Sorted keyLE (sortPairs l) :=
  List.sorted_insertionSort keyLE l

theorem sortPairs_keys_nodup {l : Inner} (h : (l.map Prod.fst).Nodup) :
    ((sortPairs l).map Prod.fst).Nodup :=
  (((sortPairs_perm l).map Prod.fst).nodup_iff).mpr h

theorem sortPairs_pairwise_lt {l : Inner} (h : (l.map Prod.fst).Nodup) :
    List.Pairwise keyLT (sortPairs l) := by
  have hne : List.Pairwise (fun a b : Int × String => a.1 ≠ b.1) (sortPairs l) :=
    (List.pairwise_map).mp (sortPairs_keys_nodup h)
  have hle : List.Pairwise keyLE (sortPairs l) := sortPairs_sorted l
  exact (hle.and hne).imp fun hab => lt_of_le_of_ne hab.1 hab.2

theorem sortPairs_eq_of_perm {l₁ l₂ : Inner} (hp : List.Perm l₁ l₂)
    (hn : (l₁.map Prod.fst).Nodup) : sortPairs l₁ = sortPairs l₂ := by
  have hn₂ : (l₂.map Prod.fst).Nodup := ((hp.map Prod.fst).nodup_iff).mp hn
  refine List.eq_of_perm_of_sorted (r := keyLT) ?_ ?_ ?_
  · exact ((sortPairs_perm l₁).trans hp).trans (sortPairs_perm l₂).symm
  · exact sortPairs_pairwise_lt hn
  · exact sortPairs_pairwise_lt hn₂

/-! ### Lookup facts -/

theorem tget_mem {κ α : Type} [DecidableEq κ] {t : List (κ × α)} {k : κ} {v : α}
    (h : tget t k = some v) : (k, v) ∈ t := by
  induction t with
  | nil => simp [tget] at h
  | cons p rest ih =>
    by_cases hk : p.1 = k
    · simp [tget, hk] at h
      subst hk
      subst h
      exact List.mem_cons_self _ _
    · simp [tget, hk] at h
      exact List.mem_cons_of_mem _ (ih h)

theorem tget_eq_some_of_mem {κ α : Type} [DecidableEq κ] {t : List (κ × α)} {k : κ} {v : α}
    (hn : (t.map Prod.fst).Nodup) (hm : (k, v) ∈ t) : tget t k = some v := by
  induction t with
  | nil => simp at hm
  | cons p rest ih =>
    simp only [List.map_cons, List.nodup_cons] at hn
    rcases List.mem_cons.mp hm with heq | hmem
    · subst heq
      simp [tget]
    · have hk : p.1 ≠ k := by
        intro hpk
        exact hn.1 (hpk ▸ (List.mem_map_of_mem Prod.fst hmem))
      simp [tget, hk]
      exact ih hn.2 hmem

theorem tget_forall2 {h₁ h₂ : HTable} (hf : List.Forall₂ EntryEquiv h₁ h₂)
    (nm : String) :
    (tget h₁ nm = none ∧ tget h₂ nm = none) ∨
      ∃ a b, tget h₁ nm = some a ∧ tget h₂ nm = some b ∧ List.Perm a b := by
  induction hf with
  | nil => exact Or.inl ⟨rfl, rfl⟩
  | cons hpq _ ih =>
    rename_i p q t₁ t₂ _
    by_cases hk : p.1 = nm
    · refine Or.inr ⟨p.2, q.2, ?_, ?_, hpq.2⟩
      · simp [tget, hk]
      · simp [tget, hpq.1 ▸ hk]
    · have hk' : q.1 ≠ nm := fun h => hk (hpq.1 ▸ h)
      simpa [tget, hk, hk'] using ih

/-! ## Claim theorems -/

/-- C2. For every well-formed two-level header mapping and every header
name, `Headers::get` returns the values of that name sorted in strictly
increasing position-key order, and the returned list is the same no
matter in which order the host enumerates the inner table's entries. -/
theorem headersGet_sorted_enum_independent (h1 h2 : HTable) (name : String)
    (hwf : HTableWF h1) (henum : List.Forall₂ EntryEquiv h1 h2) :
    Headers.get h1 name = Headers.get h2 name ∧
      ∀ inner, tget h1 (asciiLower name) = some inner →
        List.Pairwise keyLT (sortPairs inner) := by
  constructor
  · rcases tget_forall2 henum (asciiLower name) with ⟨e1, e2⟩ | ⟨a, b, e1, e2, hab⟩
    · simp [Headers.get, e1, e2]
    · have hn : (a.map Prod.fst).Nodup := hwf.2 _ (tget_mem e1)
      simp [Headers.get, e1, e2, sortPairs_eq_of_perm hab hn]
  · intro inner hi
    exact sortPairs_pairwise_lt (hwf.2 _ (tget_mem hi))

theorem headersGet_sorted_enum_independent_witness :
    Headers.get [("a", [((1 : Int), "y"), (0, "x")])] "A" =
        Headers.get [("a", [((0 : Int), "x"), (1, "y")])] "A" ∧
      ∀ inner, tget [("a", [((1 : Int), "y"), (0, "x")])] (asciiLower "A") = some inner →
        List.Pairwise keyLT (sortPairs inner) :=
  headersGet_sorted_enum_independent _ _ "A" (by decide)
    (List.Forall₂.cons ⟨rfl, by decide⟩ List.Forall₂.nil)

/-- C6 counterexample: a header whose inner table has an entry at
position key 1 but none at the base key 0.  `Headers::get` returns that
value, so `head?` of it is the value, while `Headers::get_first` reads
position key 0 directly and returns `none`.  The claim as stated, over
every two-level mapping, is therefore false. -/
theorem get_first_ne_head_cex :
    Headers.get_first [("a", [((1 : Int), "x")])] "a" ≠
      (Headers.get [("a", [((1 : Int), "x")])] "a").head? := by
  decide

/-- C6 (amended).  For every well-formed two-level header mapping that
follows the host's base-index convention (position keys are nonnegative
and a nonempty inner table has an entry at position key 0),
`Headers::get_first` equals the first element of `Headers::get` when
that result is nonempty, and `none` when it is empty. -/
theorem get_first_eq_head_of_base_indexed (h : HTable) (name : String)
    (hwf : HTableWF h)
    (hbase : ∀ inner, tget h (asciiLower name) = some inner → BaseIndexed inner) :
    Headers.get_first h name = (Headers.get h name).head? := by
  unfold Headers.get_first Headers.get
  cases e : tget h (asciiLower name) with
  | none => rfl
  | some inner =>
    have hn : (inner.map Prod.fst).Nodup := hwf.2 _ (tget_mem e)
    rcases hbase inner e with ⟨hpos, hzero⟩
    cases hi : sortPairs inner with
    | nil =>
      have hinner : inner = [] := ((hi ▸ sortPairs_perm inner).symm).eq_nil
      subst hinner
      rfl
    | cons p rest =>
      have hne : inner ≠ [] := by
        intro h0
        subst h0
        simp [sortPairs, List.insertionSort] at hi
      obtain ⟨q, hqmem, hq0⟩ := hzero hne
      have heta : ((q.1, q.2) : Int × String) = q := rfl
      rw [hq0] at heta
      have hv : ((0 : Int), q.2) ∈ inner := by rw [heta]; exact hqmem
      set v := q.2 with hvdef
      have hv2 : ((0 : Int), v) ∈ sortPairs inner :=
        ((sortPairs_perm inner).mem_iff).mpr hv
      have hlt : List.Pairwise keyLT (sortPairs inner) := sortPairs_pairwise_lt hn
      have hp : p = ((0 : Int), v) := by
        rw [hi] at hv2 hlt
        rcases List.mem_cons.mp hv2 with h0 | hmem
        · exact h0.symm
        · have hplt : keyLT p ((0 : Int), v) := (List.pairwise_cons.mp hlt).1 _ hmem
          have hpmem : p ∈ inner :=
            (sortPairs_perm inner).mem_iff.mp (hi ▸ List.mem_cons_self p rest)
          exact absurd (lt_of_le_of_lt (hpos p hpmem) hplt) (lt_irrefl _)
      show tget inner 0 = (List.map Prod.snd (sortPairs inner)).head?
      rw [hi, hp, tget_eq_some_of_mem hn hv]
      rfl

theorem get_first_eq_head_of_base_indexed_witness :
    Headers.get_first [("a", [((1 : Int), "y"), (0, "x")])] "a" =
      (Headers.get [("a", [((1 : Int), "y"), (0, "x")])] "a").head? :=
  get_first_eq_head_of_base_indexed _ "a" (by decide)
    (by
      intro inner h
      have e : inner = [((1 : Int), "y"), (0, "x")] := by
        rw [show tget [("a", [((1 : Int), "y"), (0, "x")])] (asciiLower "a")
              = some [((1 : Int), "y"), (0, "x")] from rfl] at h
        exact (Option.some.inj h).symm
      subst e
      decide)

/-- C7. Header name lookups are case-insensitive: for every two-level
header mapping, looking up a name and looking up any case variant of
the same name (same ASCII lowercasing) return identical results, both
for `Headers::get_first` and for `Headers::get`. -/
theorem headers_lookup_case_insensitive (h : HTable) (n1 n2 : String)
    (hcase : asciiLower n1 = asciiLower n2) :
    Headers.get_first h n1 = Headers.get_first h n2 ∧
      Headers.get h n1 = Headers.get h n2 := by
  unfold Headers.get_first Headers.get
  rw [hcase]
  exact ⟨rfl, rfl⟩

theorem headers_lookup_case_insensitive_witness :
    Headers.get_first [("x-request-uri", [((0 : Int), "/?foo=1")])] "X-Request-Uri" =
        Headers.get_first [("x-request-uri", [((0 : Int), "/?foo=1")])] "x-request-uri" ∧
      Headers.get [("x-request-uri", [((0 : Int), "/?foo=1")])] "X-Request-Uri" =
        Headers.get [("x-request-uri", [((0 : Int), "/?foo=1")])] "x-request-uri" :=
  headers_lookup_case_insensitive _ "X-Request-Uri" "x-request-uri" (by decide)

/-- C3. Enum decoding is total with a designated fallback: for every
host text tag, `Proxy::get_cap` and `Proxy::get_mode` decode to some
variant (they never fail), and every tag that matches none of the known
strings — the empty string included — decodes to the fallback variant
(`Ruleset` for capabilities, `Unknown` for modes). -/
theorem enum_decoding_total (s : String) :
    (∃ c, Proxy.get_cap s = c) ∧ (∃ m, Proxy.get_mode s = m) ∧
      (s ∉ (["frontend", "backend", "proxy"] : List String) →
        Proxy.get_cap s = ProxyCapability.Ruleset) ∧
      (s ∉ (["tcp", "http", "health"] : List String) →
        Proxy.get_mode s = ProxyMode.Unknown) := by
  refine ⟨⟨_, rfl⟩, ⟨_, rfl⟩, ?_, ?_⟩
  · intro hs
    simp only [List.mem_cons, List.not_mem_nil, or_false, not_or] at hs
    simp [Proxy.get_cap, hs.1, hs.2.1, hs.2.2]
  · intro hs
    simp only [List.mem_cons, List.not_mem_nil, or_false, not_or] at hs
    simp [Proxy.get_mode, hs.1, hs.2.1, hs.2.2]

theorem enum_decoding_total_witness :
    ("" ∉ (["frontend", "backend", "proxy"] : List String)) ∧
      ("" ∉ (["tcp", "http", "health"] : List String)) ∧
      Proxy.get_cap "" = ProxyCapability.Ruleset ∧
      Proxy.get_mode "" = ProxyMode.Unknown :=
  ⟨by decide, by decide,
    (enum_decoding_total "").2.2.1 (by decide),
    (enum_decoding_total "").2.2.2 (by decide)⟩

/-- C9. `Server::tracking` passes the malformed member name with the
stray trailing punctuation character to the underlying host call: its
result depends only on the host member named by that malformed string,
and a handle that exposes only the unembellished `tracking` member makes
the call fail with a host-call error naming the malformed member. -/
theorem server_tracking_member_name {α : Type} (h1 h2 : String → Option α)
    (hsame : h1 "tracking(" = h2 "tracking(") :
    Server.tracking h1 = Server.tracking h2 ∧
      ∀ v : α, Server.tracking (fun m => if m = "tracking" then some v else none) =
        Except.error "tracking(" := by
  constructor
  · simp [Server.tracking, callMethod, hsame]
  · intro v
    simp [Server.tracking, callMethod]

theorem server_tracking_member_name_witness :
    ((fun _ : String => (none : Option Nat)) "tracking(" =
        (fun _ : String => (none : Option Nat)) "tracking(") ∧
      Server.tracking (fun _ : String => (none : Option Nat)) =
        Server.tracking (fun _ : String => (none : Option Nat)) :=
  ⟨rfl, (server_tracking_member_name (fun _ => none) (fun _ => none) rfl).1⟩

/-- C1. State correlation across the two hooks: if the stored signal is
`foo=1&bar=2` and the stored timestamp is T (fitting the 64-bit
truncation), then a response action invoked with the clock at T plus
some elapsed Δ milliseconds, with its header enumeration and its
`method`/`status` fetches succeeding, increments the foo counter
exactly once with label `1`, the bar counter exactly once with label
`2`, and observes the response-time histogram exactly once with labels
`(1, 2)` and observed value Δ, and the hook succeeds. -/
theorem rustResp_state_correlation (vars : String → Option VarVal)
    (f : String → Option String) (T d : Nat) (reg : Registry) (m s : String)
    (hsig : vars "txn.req_uri" = some (VarVal.vstr "foo=1&bar=2"))
    (hts : vars "txn.start_time" = some (VarVal.vint T))
    (hT : T < U64SIZE)
    (hm : f "method" = some m) (hs : f "status" = some s) :
    rust_resp vars f true (T + d) reg =
      ({ fooCounts := reg.fooCounts ++ ["1"],
         barCounts := reg.barCounts ++ ["2"],
         histObs := reg.histObs ++ [("1", "2", d)] }, none) := by
  have hfoo : queryLookup "foo=1&bar=2" "foo" = some "1" := by decide
  have hbar : queryLookup "foo=1&bar=2" "bar" = some "2" := by decide
  have hmod : T % U64SIZE = T := Nat.mod_eq_of_lt hT
  have hnlt : ¬(T + d < T % U64SIZE) := by rw [hmod]; omega
  have hsub : T + d - T % U64SIZE = d := by rw [hmod]; omega
  simp [rust_resp, hsig, hts, hm, hs, decodeVarString, decodeVarU128,
        hfoo, hbar, incFooOpt, incBarOpt, hnlt, hsub]

theorem rustResp_state_correlation_witness :
    ((fun n => if n = "txn.req_uri" then some (VarVal.vstr "foo=1&bar=2")
        else if n = "txn.start_time" then some (VarVal.vint 1000)
        else none) "txn.req_uri" = some (VarVal.vstr "foo=1&bar=2")) ∧
      (1000 : Nat) < U64SIZE ∧
      rust_resp
          (fun n => if n = "txn.req_uri" then some (VarVal.vstr "foo=1&bar=2")
            else if n = "txn.start_time" then some (VarVal.vint 1000)
            else none)
          (fun _ => some "GET") true (1000 + 7) ⟨[], [], []⟩ =
        ({ fooCounts := [] ++ ["1"], barCounts := [] ++ ["2"],
           histObs := [] ++ [("1", "2", 7)] }, none) :=
  ⟨rfl, by decide,
    rustResp_state_correlation _ _ 1000 7 ⟨[], [], []⟩ "GET" "GET"
      rfl rfl (by decide) rfl rfl⟩

/-- C4. Atomicity on absent state: a response action invoked when
neither `txn.req_uri` nor `txn.start_time` was stored fails with the
typed error produced by decoding the missing signal variable, and the
registry is left exactly as it was — no counter increment and no
histogram observation. -/
theorem rustResp_missing_state_no_mutation (vars : String → Option VarVal)
    (f : String → Option String) (nowMs : Nat) (reg : Registry)
    (hsig : vars "txn.req_uri" = none) (_hts : vars "txn.start_time" = none) :
    rust_resp vars f true nowMs reg =
      (reg, some (HookErr.varConvError "txn.req_uri")) := by
  simp [rust_resp, hsig, decodeVarString]

theorem rustResp_missing_state_no_mutation_witness :
    ((fun _ : String => (none : Option VarVal)) "txn.req_uri" = none) ∧
      ((fun _ : String => (none : Option VarVal)) "txn.start_time" = none) ∧
      rust_resp (fun _ => none) (fun _ => some "GET") true 5 ⟨[], [], []⟩ =
        (⟨[], [], []⟩, some (HookErr.varConvError "txn.req_uri")) :=
  ⟨rfl, rfl,
    rustResp_missing_state_no_mutation (fun _ => none) (fun _ => some "GET")
      5 ⟨[], [], []⟩ rfl rfl⟩

/-- C5. Empty-signal edge case: with stored signal the empty string,
a response action (headers and fetches succeeding, timestamp T stored,
clock at T plus Δ) increments neither the foo counter nor the bar
counter and observes the histogram exactly once with empty-string
labels and observed value Δ. -/
theorem rustResp_empty_signal (vars : String → Option VarVal)
    (f : String → Option String) (T d : Nat) (reg : Registry) (m s : String)
    (hsig : vars "txn.req_uri" = some (VarVal.vstr ""))
    (hts : vars "txn.start_time" = some (VarVal.vint T))
    (hT : T < U64SIZE)
    (hm : f "method" = some m) (hs : f "status" = some s) :
    rust_resp vars f true (T + d) reg =
      ({ fooCounts := reg.fooCounts, barCounts := reg.barCounts,
         histObs := reg.histObs ++ [("", "", d)] }, none) := by
  have hfoo : queryLookup "" "foo" = none := by decide
  have hbar : queryLookup "" "bar" = none := by decide
  have hmod : T % U64SIZE = T := Nat.mod_eq_of_lt hT
  have hnlt : ¬(T + d < T % U64SIZE) := by rw [hmod]; omega
  have hsub : T + d - T % U64SIZE = d := by rw [hmod]; omega
  simp [rust_resp, hsig, hts, hm, hs, decodeVarString, decodeVarU128,
        hfoo, hbar, incFooOpt, incBarOpt, hnlt, hsub]

theorem rustResp_empty_signal_witness :
    ((fun n => if n = "txn.req_uri" then some (VarVal.vstr "")
        else if n = "txn.start_time" then some (VarVal.vint 1000)
        else none) "txn.req_uri" = some (VarVal.vstr "")) ∧
      (1000 : Nat) < U64SIZE ∧
      rust_resp
          (fun n => if n = "txn.req_uri" then some (VarVal.vstr "")
            else if n = "txn.start_time" then some (VarVal.vint 1000)
            else none)
          (fun _ => some "GET") true (1000 + 3) ⟨[], [], []⟩ =
        ({ fooCounts := [], barCounts := [], histObs := [] ++ [("", "", 3)] }, none) :=
  ⟨rfl, by decide,
    rustResp_empty_signal _ _ 1000 3 ⟨[], [], []⟩ "GET" "GET"
      rfl rfl (by decide) rfl rfl⟩

/-- C8 counterexample: with stored timestamp 1 ms and a current clock
reading of 0 ms — a reading earlier than the stored timestamp — the
elapsed-duration computation `now.sub(start_time)` underflows and
panics (`Duration` subtraction), so the computation does not complete
without panicking for every current clock reading, refuting the claim
as stated. -/
theorem rustResp_duration_panic_cex :
    (rust_resp
        (fun n => if n = "txn.req_uri" then some (VarVal.vstr "")
          else if n = "txn.start_time" then some (VarVal.vint 1) else none)
        (fun _ => some "200") true 0 ⟨[], [], []⟩).2 =
      some HookErr.durationPanic := by
  decide

/-- C8 (amended). The elapsed-duration computation of the response
action completes without panicking exactly when the current reading is
not earlier than the stored timestamp (after its 64-bit truncation):
with the signal and timestamp stored and headers and fetches
succeeding, the hook finishes without any error when
`start ≤ now`, and the `Duration` subtraction panics precisely when
`now < start`. -/
theorem rustResp_duration_sub_panic_iff (vars : String → Option VarVal)
    (f : String → Option String) (sig : String) (st nowMs : Nat)
    (reg : Registry) (m s : String)
    (hsig : vars "txn.req_uri" = some (VarVal.vstr sig))
    (hts : vars "txn.start_time" = some (VarVal.vint st))
    (hm : f "method" = some m) (hs : f "status" = some s) :
    ((rust_resp vars f true nowMs reg).2 = some HookErr.durationPanic ↔
        nowMs < st % U64SIZE) ∧
      (st % U64SIZE ≤ nowMs → (rust_resp vars f true nowMs reg).2 = none) := by
  by_cases hlt : nowMs < st % U64SIZE
  · constructor
    · simp [rust_resp, hsig, hts, hm, hs, decodeVarString, decodeVarU128, hlt]
    · intro hle
      exact absurd hlt (Nat.not_lt.mpr hle)
  · constructor
    · simp [rust_resp, hsig, hts, hm, hs, decodeVarString, decodeVarU128, hlt]
    · intro _
      simp [rust_resp, hsig, hts, hm, hs, decodeVarString, decodeVarU128, hlt]

theorem rustResp_duration_sub_panic_iff_witness :
    ((fun n => if n = "txn.req_uri" then some (VarVal.vstr "")
        else if n = "txn.start_time" then some (VarVal.vint 1000)
        else none) "txn.req_uri" = some (VarVal.vstr "")) ∧
      (((rust_resp
            (fun n => if n = "txn.req_uri" then some (VarVal.vstr "")
              else if n = "txn.start_time" then some (VarVal.vint 1000)
              else none)
            (fun _ => some "GET") true 500 ⟨[], [], []⟩).2 =
          some HookErr.durationPanic ↔ 500 < 1000 % U64SIZE) ∧
        (1000 % U64SIZE ≤ 500 →
          (rust_resp
              (fun n => if n = "txn.req_uri" then some (VarVal.vstr "")
                else if n = "txn.start_time" then some (VarVal.vint 1000)
                else none)
              (fun _ => some "GET") true 500 ⟨[], [], []⟩).2 = none)) :=
  ⟨rfl,
    rustResp_duration_sub_panic_iff _ _ "" 1000 500 ⟨[], [], []⟩ "GET" "GET"
      rfl rfl rfl rfl⟩

/-- C10. Non-atomic error path: if the stored signal is present but the
stored timestamp fails to decode as an integer (absent or malformed),
the response action first performs the counter increments for whatever
`foo`/`bar` parameters the signal contains and only then fails when
reading the timestamp, leaving those registry mutations in place: the
final registry is exactly the input registry after the optional foo and
bar increments, and each present parameter did append its label to its
counter. -/
theorem rustResp_nonatomic_counter_then_failure (vars : String → Option VarVal)
    (f : String → Option String) (sig : String) (nowMs : Nat)
    (reg : Registry) (m s : String)
    (hsig : vars "txn.req_uri" = some (VarVal.vstr sig))
    (hts : decodeVarU128 "txn.start_time" (vars "txn.start_time") =
      Except.error (HookErr.varConvError "txn.start_time"))
    (hm : f "method" = some m) (hs : f "status" = some s) :
    rust_resp vars f true nowMs reg =
      (incBarOpt (incFooOpt reg (queryLookup sig "foo")) (queryLookup sig "bar"),
        some (HookErr.varConvError "txn.start_time")) ∧
      (∀ p, queryLookup sig "foo" = some p →
        (incBarOpt (incFooOpt reg (queryLookup sig "foo"))
            (queryLookup sig "bar")).fooCounts = reg.fooCounts ++ [p]) ∧
      (∀ p, queryLookup sig "bar" = some p →
        (incBarOpt (incFooOpt reg (queryLookup sig "foo"))
            (queryLookup sig "bar")).barCounts = reg.barCounts ++ [p]) := by
  refine ⟨?_, ?_, ?_⟩
  · simp [rust_resp, hsig, decodeVarString, hm, hs, hts]
  · intro p hp
    cases hb : queryLookup sig "bar" <;> simp [incFooOpt, incBarOpt, hp, hb]
  · intro p hp
    cases hfo : queryLookup sig "foo" <;> simp [incFooOpt, incBarOpt, hp, hfo]

theorem rustResp_nonatomic_counter_then_failure_witness :
    ((fun n => if n = "txn.req_uri" then some (VarVal.vstr "foo=1&bar=2")
        else none) "txn.req_uri" = some (VarVal.vstr "foo=1&bar=2")) ∧
      (rust_resp
          (fun n => if n = "txn.req_uri" then some (VarVal.vstr "foo=1&bar=2")
            else none)
          (fun _ => some "GET") true 5 ⟨[], [], []⟩ =
        (incBarOpt (incFooOpt ⟨[], [], []⟩ (queryLookup "foo=1&bar=2" "foo"))
            (queryLookup "foo=1&bar=2" "bar"),
          some (HookErr.varConvError "txn.start_time")) ∧
        (∀ p, queryLookup "foo=1&bar=2" "foo" = some p →
          (incBarOpt (incFooOpt ⟨[], [], []⟩ (queryLookup "foo=1&bar=2" "foo"))
              (queryLookup "foo=1&bar=2" "bar")).fooCounts = [] ++ [p]) ∧
        (∀ p, queryLookup "foo=1&bar=2" "bar" = some p →
          (incBarOpt (incFooOpt ⟨[], [], []⟩ (queryLookup "foo=1&bar=2" "foo"))
              (queryLookup "foo=1&bar=2" "bar")).barCounts = [] ++ [p])) :=
  ⟨rfl,
    rustResp_nonatomic_counter_then_failure _ _ "foo=1&bar=2" 5 ⟨[], [], []⟩
      "GET" "GET" rfl rfl rfl rfl⟩

end HaproxyApi
